import Mathlib

/-!
Shallow embedding of the register codec (`src/cpu/src/aarch64/core_regs.rs`),
the virtio device-lifecycle defaults and feature negotiation
(`src/virtio/src/lib.rs`), and the MAC-address syntax check
(`src/machine_manager/src/config/network.rs`), together with proofs of the
specification claims about them.

Machine integers are embedded as `Nat` with explicit `% 2 ^ w` at the points
where the source performs a truncating cast (`as u64`, `as u32`); widening
casts (`as u128` on a `u64`) are the identity and are not written.  Fallible
operations are embedded in `Except`/`Option`; the unreachable-arm panic of the
register-id encoder is embedded as `Option.none`.
-/

/-! ### Constants from `kvm_bindings` used by `core_regs.rs` -/

def KVM_REG_ARM64 : Nat := 0x6000000000000000

def KVM_REG_SIZE_U32 : Nat := 0x0020000000000000

def KVM_REG_SIZE_U64 : Nat := 0x0030000000000000

def KVM_REG_SIZE_U128 : Nat := 0x0040000000000000

def KVM_REG_ARM_CORE : Nat := 0x00100000

def KVM_NR_SPSR : Nat := 5

def KVM_NR_REGS : Nat := 31

def KVM_NR_FP_REGS : Nat := 32

/-! ### Byte offsets of the `repr(C)` `kvm_regs` register file

These are the values the source obtains through `offset_of!` on the
`kvm_bindings` structures:

```
struct user_pt_regs { __u64 regs[31]; __u64 sp; __u64 pc; __u64 pstate; };
struct kvm_regs {
    struct user_pt_regs      regs;
    __u64                    sp_el1;
    __u64                    elr_el1;
    __u64                    spsr[KVM_NR_SPSR];
    struct user_fpsimd_state fp_regs;   // 16-byte aligned
};
struct user_fpsimd_state { __uint128_t vregs[32]; __u32 fpsr; __u32 fpcr; __u32 __reserved[2]; };
```
-/

def offset_user_pt_regs_regs : Nat := 0

def offset_user_pt_regs_sp : Nat := offset_user_pt_regs_regs + 31 * 8

def offset_user_pt_regs_pc : Nat := offset_user_pt_regs_sp + 8

def offset_user_pt_regs_pstate : Nat := offset_user_pt_regs_pc + 8

def size_user_pt_regs : Nat := offset_user_pt_regs_pstate + 8

def offset_kvm_regs_regs : Nat := 0

def offset_kvm_regs_sp_el1 : Nat := offset_kvm_regs_regs + size_user_pt_regs

def offset_kvm_regs_elr_el1 : Nat := offset_kvm_regs_sp_el1 + 8

def offset_kvm_regs_spsr : Nat := offset_kvm_regs_elr_el1 + 8

/-- The `fp_regs` field is aligned to 16 bytes (its first member is a
`__uint128_t` array), so the offset 328 of the end of `spsr` is rounded up. -/
def offset_kvm_regs_fp_regs : Nat :=
  ((offset_kvm_regs_spsr + KVM_NR_SPSR * 8 + 15) / 16) * 16

def offset_user_fpsimd_state_vregs : Nat := 0

def offset_user_fpsimd_state_fpsr : Nat := offset_user_fpsimd_state_vregs + 32 * 16

def offset_user_fpsimd_state_fpcr : Nat := offset_user_fpsimd_state_fpsr + 4

/-! ### The register variants -/

/-- Embedding of `enum Arm64CoreRegs` from `core_regs.rs`. -/
inductive Arm64CoreRegs where
  | KvmSpEl1
  | KvmElrEl1
  | KvmSpsr (idx : Nat)
  | UserPTRegRegs (idx : Nat)
  | UserPTRegSp
  | UserPTRegPc
  | UserPTRegPState
  | UserFPSIMDStateVregs (idx : Nat)
  | UserFPSIMDStateFpsr
  | UserFPSIMDStateFpcr
deriving DecidableEq

/-- Embedding of `impl From<Arm64CoreRegs> for u64`.  The match guards
(`if idx < KVM_NR_SPSR`, `if idx < 31`, `if idx < 32`) come straight from the
source; an index failing its guard falls through to the source's
`panic!("No such Register")` arm, embedded here as `none`. -/
def Arm64CoreRegs.to_u64 (elem : Arm64CoreRegs) : Option Nat :=
  ((match elem with
    | .KvmSpEl1 => some (KVM_REG_SIZE_U64, offset_kvm_regs_sp_el1)
    | .KvmElrEl1 => some (KVM_REG_SIZE_U64, offset_kvm_regs_elr_el1)
    | .KvmSpsr idx =>
        if idx < KVM_NR_SPSR then some (KVM_REG_SIZE_U64, offset_kvm_regs_spsr + idx * 8)
        else none
    | .UserPTRegRegs idx =>
        if idx < 31 then
          some (KVM_REG_SIZE_U64, offset_kvm_regs_regs + offset_user_pt_regs_regs + idx * 8)
        else none
    | .UserPTRegSp => some (KVM_REG_SIZE_U64, offset_kvm_regs_regs + offset_user_pt_regs_sp)
    | .UserPTRegPc => some (KVM_REG_SIZE_U64, offset_kvm_regs_regs + offset_user_pt_regs_pc)
    | .UserPTRegPState =>
        some (KVM_REG_SIZE_U64, offset_kvm_regs_regs + offset_user_pt_regs_pstate)
    | .UserFPSIMDStateVregs idx =>
        if idx < 32 then
          some (KVM_REG_SIZE_U128,
            offset_kvm_regs_fp_regs + offset_user_fpsimd_state_vregs + idx * 16)
        else none
    | .UserFPSIMDStateFpsr =>
        some (KVM_REG_SIZE_U32, offset_kvm_regs_fp_regs + offset_user_fpsimd_state_fpsr)
    | .UserFPSIMDStateFpcr =>
        some (KVM_REG_SIZE_U32, offset_kvm_regs_fp_regs + offset_user_fpsimd_state_fpcr)
   : Option (Nat × Nat))).map fun p => KVM_REG_ARM64 ||| p.1 ||| KVM_REG_ARM_CORE ||| (p.2 / 4)

/-- Validity of a register variant: index-bearing variants are valid exactly
below their class's fixed count (31 general-purpose, `KVM_NR_SPSR` = 5 saved
program status registers, 32 SIMD vector registers). -/
def Arm64CoreRegs.is_valid : Arm64CoreRegs → Bool
  | .KvmSpsr idx => idx < KVM_NR_SPSR
  | .UserPTRegRegs idx => idx < 31
  | .UserFPSIMDStateVregs idx => idx < 32
  | _ => true

/-! ### The register file (`kvm_regs`) -/

/-- Embedding of `user_pt_regs`; the fixed array `regs: [u64; 31]` becomes a
list (of length 31 in every value the code builds). -/
structure UserPtRegs where
  regs : List Nat
  sp : Nat
  pc : Nat
  pstate : Nat
deriving DecidableEq

/-- Embedding of `user_fpsimd_state` (the reserved padding words carry no
state and are omitted). -/
structure UserFpsimdState where
  vregs : List Nat
  fpsr : Nat
  fpcr : Nat
deriving DecidableEq

/-- Embedding of `kvm_regs`. -/
structure KvmRegs where
  regs : UserPtRegs
  sp_el1 : Nat
  elr_el1 : Nat
  spsr : List Nat
  fp_regs : UserFpsimdState
deriving DecidableEq

/-! ### Bulk capture and restore -/

/-- Embedding of `get_core_regs`.  The function is parametric in the monad
carrying the effect of `vcpu_fd.get_one_reg` so that the same definition can
be run with a fallible oracle (`Except`, matching the source's `?`
propagation) or a concrete vcpu state.  Each 64-bit read is truncated with
`as u64` (`% 2 ^ 64`), the two status words with `as u32` (`% 2 ^ 32`), and
the SIMD vector reads are stored untruncated, exactly as in the source. -/
def get_core_regs {m : Type → Type} [Monad m]
    (get_one_reg : Arm64CoreRegs → m Nat) : m KvmRegs := do
  let sp ← get_one_reg .UserPTRegSp
  let sp_el1 ← get_one_reg .KvmSpEl1
  let pstate ← get_one_reg .UserPTRegPState
  let pc ← get_one_reg .UserPTRegPc
  let elr_el1 ← get_one_reg .KvmElrEl1
  let regs ← (List.range KVM_NR_REGS).mapM fun i => get_one_reg (.UserPTRegRegs i)
  let spsr ← (List.range KVM_NR_SPSR).mapM fun i => get_one_reg (.KvmSpsr i)
  let vregs ← (List.range KVM_NR_FP_REGS).mapM fun i => get_one_reg (.UserFPSIMDStateVregs i)
  let fpsr ← get_one_reg .UserFPSIMDStateFpsr
  let fpcr ← get_one_reg .UserFPSIMDStateFpcr
  pure
    { regs :=
        { regs := regs.map (· % 2 ^ 64)
          sp := sp % 2 ^ 64
          pc := pc % 2 ^ 64
          pstate := pstate % 2 ^ 64 }
      sp_el1 := sp_el1 % 2 ^ 64
      elr_el1 := elr_el1 % 2 ^ 64
      spsr := spsr.map (· % 2 ^ 64)
      fp_regs := { vregs := vregs, fpsr := fpsr % 2 ^ 32, fpcr := fpcr % 2 ^ 32 } }

/-- Embedding of `set_core_regs`.  All casts at the call sites are widening
(`u64 as u128`, `u32 as u128`), hence the values are passed unchanged.  Array
indexing `core_regs.regs.regs[i]` becomes `getD i 0` (the lists built by the
code always have the full fixed length). -/
def set_core_regs {m : Type → Type} [Monad m]
    (set_one_reg : Arm64CoreRegs → Nat → m PUnit) (core_regs : KvmRegs) : m PUnit := do
  set_one_reg .UserPTRegSp core_regs.regs.sp
  set_one_reg .KvmSpEl1 core_regs.sp_el1
  set_one_reg .UserPTRegPState core_regs.regs.pstate
  set_one_reg .UserPTRegPc core_regs.regs.pc
  set_one_reg .KvmElrEl1 core_regs.elr_el1
  (List.range KVM_NR_REGS).forM fun i =>
    set_one_reg (.UserPTRegRegs i) (core_regs.regs.regs.getD i 0)
  (List.range KVM_NR_SPSR).forM fun i =>
    set_one_reg (.KvmSpsr i) (core_regs.spsr.getD i 0)
  (List.range KVM_NR_FP_REGS).forM fun i =>
    set_one_reg (.UserFPSIMDStateVregs i) (core_regs.fp_regs.vregs.getD i 0)
  set_one_reg .UserFPSIMDStateFpsr core_regs.fp_regs.fpsr
  set_one_reg .UserFPSIMDStateFpcr core_regs.fp_regs.fpcr

/-- The canonical order in which `get_core_regs` issues its reads (its 75
elements are exactly the valid register variants). -/
def captureOrder : List Arm64CoreRegs :=
  [.UserPTRegSp, .KvmSpEl1, .UserPTRegPState, .UserPTRegPc, .KvmElrEl1]
    ++ (List.range KVM_NR_REGS).map .UserPTRegRegs
    ++ (List.range KVM_NR_SPSR).map .KvmSpsr
    ++ (List.range KVM_NR_FP_REGS).map .UserFPSIMDStateVregs
    ++ [.UserFPSIMDStateFpsr, .UserFPSIMDStateFpcr]

/-- The canonical sequence of (register, value) writes issued by
`set_core_regs` on a given register file. -/
def writeOrder (core_regs : KvmRegs) : List (Arm64CoreRegs × Nat) :=
  [(.UserPTRegSp, core_regs.regs.sp), (.KvmSpEl1, core_regs.sp_el1),
    (.UserPTRegPState, core_regs.regs.pstate), (.UserPTRegPc, core_regs.regs.pc),
    (.KvmElrEl1, core_regs.elr_el1)]
    ++ (List.range KVM_NR_REGS).map (fun i => (.UserPTRegRegs i, core_regs.regs.regs.getD i 0))
    ++ (List.range KVM_NR_SPSR).map (fun i => (.KvmSpsr i, core_regs.spsr.getD i 0))
    ++ (List.range KVM_NR_FP_REGS).map
        (fun i => (.UserFPSIMDStateVregs i, core_regs.fp_regs.vregs.getD i 0))
    ++ [(.UserFPSIMDStateFpsr, core_regs.fp_regs.fpsr),
        (.UserFPSIMDStateFpcr, core_regs.fp_regs.fpcr)]

/-- Reassembles the register file from the list of the 75 raw values read in
`captureOrder` order, applying the same truncating casts as
`get_core_regs`. -/
def mkRegs : List Nat → KvmRegs
  | sp :: sp_el1 :: pstate :: pc :: elr_el1 :: rest =>
    let rest1 := rest.drop 31
    let rest2 := rest1.drop 5
    let rest3 := rest2.drop 32
    { regs :=
        { regs := (rest.take 31).map (· % 2 ^ 64)
          sp := sp % 2 ^ 64
          pc := pc % 2 ^ 64
          pstate := pstate % 2 ^ 64 }
      sp_el1 := sp_el1 % 2 ^ 64
      elr_el1 := elr_el1 % 2 ^ 64
      spsr := (rest1.take 5).map (· % 2 ^ 64)
      fp_regs :=
        { vregs := rest2.take 32
          fpsr := rest3.headD 0 % 2 ^ 32
          fpcr := rest3.tail.headD 0 % 2 ^ 32 } }
  | _ =>
    { regs := { regs := [], sp := 0, pc := 0, pstate := 0 }, sp_el1 := 0, elr_el1 := 0,
      spsr := [], fp_regs := { vregs := [], fpsr := 0, fpcr := 0 } }

/-! ### Virtio feature negotiation (`src/virtio/src/lib.rs`) -/

/-- Bitwise complement of a `u32` value (`!x` in Rust). -/
def u32_not (x : Nat) : Nat := 0xFFFFFFFF ^^^ x

/-- Embedding of the default trait method `VirtioDevice::checked_driver_features`.
The two required methods it calls, `get_device_features` and
`get_driver_features`, are abstract in the trait and are therefore taken as
function parameters (one 32-bit window per page). -/
def checked_driver_features (get_device_features get_driver_features : Nat → Nat)
    (page value : Nat) : Nat :=
  let unsupported_features := value &&& u32_not (get_device_features page)
  let v := if unsupported_features ≠ 0 then value &&& u32_not unsupported_features else value
  if page = 0 then (get_driver_features 1 <<< 32) ||| v
  else (v <<< 32) ||| get_driver_features 0

/-- Negotiation state of one virtio device: its fixed per-page device feature
windows and the 64-bit accepted driver feature mask. -/
structure NegotiationState where
  device_features : Nat → Nat
  driver_features : Nat

/-- Modelled from the spec: `get_driver_features` is a required trait method
whose implementations are outside this repository slice; per §4.2 it
retrieves "the per-page accepted value used by the above combination" from
the stored 64-bit mask (page 0 = bits 0-31, page 1 = bits 32-63). -/
def get_driver_features (st : NegotiationState) (page : Nat) : Nat :=
  if page = 0 then st.driver_features % 2 ^ 32 else (st.driver_features >>> 32) % 2 ^ 32

/-- Modelled from the spec: `set_driver_features` is a required trait method
whose implementations are outside this repository slice; per §4.2 it stores
the per-page accepted value, i.e. the 64-bit mask produced by
`checked_driver_features` for that page ("Get checked driver features before
set the value at the page"). -/
def set_driver_features (st : NegotiationState) (page value : Nat) : NegotiationState :=
  { st with
    driver_features :=
      checked_driver_features st.device_features (get_driver_features st) page value }

/-! ### Virtio device-lifecycle default methods -/

/-- Model of a virtio device backend that does not override the default trait
methods: the only observable used by those defaults is `device_type`. -/
structure VirtioDeviceModel where
  device_type : Nat
deriving DecidableEq

/-- Embedding of the default `VirtioDevice::unrealize`: it fails with a fixed
message and leaves the device untouched (the returned state is the input). -/
def unrealize_default (d : VirtioDeviceModel) : VirtioDeviceModel × Except String Unit :=
  (d, .error "Unrealize of the virtio device is not implemented")

/-- Embedding of the default `VirtioDevice::deactivate`: it fails with a
message ending in the formatted `device_type()` value and leaves the device
untouched. -/
def deactivate_default (d : VirtioDeviceModel) : VirtioDeviceModel × Except String Unit :=
  (d, .error ("Reset this device is not supported, virtio dev type is "
    ++ toString d.device_type))

/-- Embedding of the default `VirtioDevice::update_config`: it fails with a
fixed message and leaves the device untouched. -/
def update_config_default (d : VirtioDeviceModel) : VirtioDeviceModel × Except String Unit :=
  (d, .error "Unsupported to update configuration")

/-- Tests whether the first list occurs at the head of the second. -/
def matchesAt : List Char → List Char → Bool
  | [], _ => true
  | _ :: _, [] => false
  | c :: cs, h :: hs => c == h && matchesAt cs hs

/-- Tests whether the first list occurs contiguously anywhere in the second
(substring containment on character lists). -/
def containsSeq (needle : List Char) : List Char → Bool
  | [] => needle.isEmpty
  | h :: hs => matchesAt needle (h :: hs) || containsSeq needle hs

/-! ### MAC address check (`src/machine_manager/src/config/network.rs`) -/

def MAC_ADDRESS_LENGTH : Nat := 17

/-- The hexadecimal character table `bit_list` from `check_mac_address`
(the same 22 characters, in the source's order). -/
def bit_list : List Char := "0123456789abcdefABCDEF".toList

/-- Embedding of Rust's `str::split(':')`: every colon separates two (possibly
empty) pieces, so the result always has one more piece than there are
colons. -/
def splitColon : List Char → List (List Char)
  | [] => [[]]
  | c :: rest =>
    let r := splitColon rest
    if c = ':' then [] :: r else (c :: r.headD []) :: r.tail

/-- Embedding of `check_mac_address`.  The source's early `return false`
paths become the `if`/`all` structure; the per-group check reads the first
two characters of a group already known to have length 2, which is the
`[c1, c2]` pattern here. -/
def check_mac_address (mac : List Char) : Bool :=
  if mac.length ≠ MAC_ADDRESS_LENGTH then false
  else
    let mac_vec := splitColon mac
    if mac_vec.length ≠ 6 then false
    else
      mac_vec.all fun mac_bit =>
        match mac_bit with
        | [c1, c2] => bit_list.contains c1 && bit_list.contains c2
        | _ => false

/-- Specification-side reading of "hexadecimal digit (0-9, a-f, or A-F)",
phrased on code points. -/
def isHexChar (c : Char) : Prop :=
  ((Char.toNat '0') ≤ c.toNat ∧ c.toNat ≤ Char.toNat '9')
    ∨ ((Char.toNat 'a') ≤ c.toNat ∧ c.toNat ≤ Char.toNat 'f')
    ∨ ((Char.toNat 'A') ≤ c.toNat ∧ c.toNat ≤ Char.toNat 'F')

/-- Specification-side reading of the claim: the string is exactly six
groups separated by single colons, each group exactly two hexadecimal
characters. -/
def isMacSpec (mac : List Char) : Prop :=
  ∃ g1 g2 g3 g4 g5 g6 : List Char,
    mac = g1 ++ ':' :: (g2 ++ ':' :: (g3 ++ ':' :: (g4 ++ ':' :: (g5 ++ ':' :: g6))))
      ∧ ∀ g ∈ [g1, g2, g3, g4, g5, g6], g.length = 2 ∧ ∀ c ∈ g, isHexChar c

/-! ### Helper lemmas on `Except` and monadic list traversals -/

theorem except_pure_eq_ok {ε α : Type} (a : α) : (pure a : Except ε α) = .ok a := rfl

theorem except_ok_bind {ε α β : Type} (a : α) (f : α → Except ε β) :
    (Except.ok a : Except ε α) >>= f = f a := rfl

theorem except_error_bind {ε α β : Type} (e : ε) (f : α → Except ε β) :
    (Except.error e : Except ε α) >>= f = .error e := rfl

theorem except_map_ok {ε α β : Type} (g : α → β) (a : α) :
    (Except.ok a : Except ε α).map g = .ok (g a) := rfl

theorem except_map_error {ε α β : Type} (g : α → β) (e : ε) :
    (Except.error e : Except ε α).map g = .error e := rfl

theorem mapM_map_comp {m : Type → Type} [Monad m] [LawfulMonad m] {α β γ : Type}
    (g : α → β) (f : β → m γ) (l : List α) :
    (l.map g).mapM f = l.mapM fun a => f (g a) := by
  induction l with
  | nil => rfl
  | cons a t ih => rw [List.map_cons, List.mapM_cons, List.mapM_cons, ih]

theorem forM_map_comp {m : Type → Type} [Monad m] {α β : Type}
    (g : α → β) (f : β → m PUnit) (l : List α) :
    (l.map g).forM f = l.forM fun a => f (g a) := by
  induction l with
  | nil => rfl
  | cons a t ih => rw [List.map_cons, List.forM_cons', List.forM_cons', ih]

theorem except_mapM_length {ε α β : Type} (f : α → Except ε β) :
    ∀ (l : List α) (r : List β), l.mapM f = .ok r → r.length = l.length := by
  intro l
  induction l with
  | nil =>
    intro r h
    simp only [List.mapM_nil, except_pure_eq_ok, Except.ok.injEq] at h
    simp [← h]
  | cons a t ih =>
    intro r h
    rw [List.mapM_cons] at h
    cases hfa : f a with
    | error e => rw [hfa, except_error_bind] at h; exact absurd h (by simp)
    | ok x =>
      rw [hfa, except_ok_bind] at h
      cases hmt : t.mapM f with
      | error e => rw [hmt, except_error_bind] at h; exact absurd h (by simp)
      | ok xs =>
        rw [hmt, except_ok_bind, except_pure_eq_ok] at h
        cases h
        simp [ih xs hmt]

theorem except_mapM_ok_fun {ε α β : Type} (f : α → β) (l : List α) :
    l.mapM (fun a => (Except.ok (f a) : Except ε β)) = .ok (l.map f) := by
  induction l with
  | nil => rfl
  | cons a t ih => rw [List.mapM_cons, ih]; rfl

theorem except_map_eq_bind {ε α β : Type} (x : Except ε α) (g : α → β) :
    x.map g = x >>= fun a => pure (g a) := by cases x <;> rfl

theorem get_core_regs_eq_mapM {ε : Type} (read : Arm64CoreRegs → Except ε Nat) :
    get_core_regs read = (captureOrder.mapM read).map mkRegs := by
  rw [get_core_regs, captureOrder]
  simp only [List.mapM_append, mapM_map_comp, List.mapM_cons, List.mapM_nil,
    except_map_eq_bind, bind_assoc, pure_bind]
  cases hsp : read .UserPTRegSp with
  | error e => simp [except_error_bind]
  | ok sp =>
  simp only [except_ok_bind]
  cases hspel : read .KvmSpEl1 with
  | error e => simp [except_error_bind]
  | ok sp_el1 =>
  simp only [except_ok_bind]
  cases hpst : read .UserPTRegPState with
  | error e => simp [except_error_bind]
  | ok pstate =>
  simp only [except_ok_bind]
  cases hpc : read .UserPTRegPc with
  | error e => simp [except_error_bind]
  | ok pc =>
  simp only [except_ok_bind]
  cases helr : read .KvmElrEl1 with
  | error e => simp [except_error_bind]
  | ok elr_el1 =>
  simp only [except_ok_bind]
  cases hgp : (List.range KVM_NR_REGS).mapM (fun i => read (.UserPTRegRegs i)) with
  | error e => simp [except_error_bind]
  | ok gp =>
  simp only [except_ok_bind]
  have hgpl : gp.length = 31 := by
    have := except_mapM_length _ _ _ hgp
    simpa [KVM_NR_REGS] using this
  cases hsps : (List.range KVM_NR_SPSR).mapM (fun i => read (.KvmSpsr i)) with
  | error e => simp [except_error_bind]
  | ok sps =>
  simp only [except_ok_bind]
  have hspsl : sps.length = 5 := by
    have := except_mapM_length _ _ _ hsps
    simpa [KVM_NR_SPSR] using this
  cases hvr : (List.range KVM_NR_FP_REGS).mapM (fun i => read (.UserFPSIMDStateVregs i)) with
  | error e => simp [except_error_bind]
  | ok vr =>
  simp only [except_ok_bind]
  have hvrl : vr.length = 32 := by
    have := except_mapM_length _ _ _ hvr
    simpa [KVM_NR_FP_REGS] using this
  cases hfpsr : read .UserFPSIMDStateFpsr with
  | error e => simp [except_error_bind]
  | ok fpsr =>
  simp only [except_ok_bind]
  cases hfpcr : read .UserFPSIMDStateFpcr with
  | error e => simp [except_error_bind]
  | ok fpcr =>
  simp only [except_ok_bind]
  simp [mkRegs, except_pure_eq_ok, List.append_assoc, List.cons_append,
    List.take_left' hgpl, List.drop_left' hgpl, List.take_left' hspsl, List.drop_left' hspsl,
    List.take_left' hvrl, List.drop_left' hvrl]

/-! ### Instrumented monads for the restore path -/

/-- State-plus-failure monad used to observe which writes `set_core_regs`
issues: the state records the successfully issued writes in order, and a
failing write aborts the rest of the computation while keeping the record. -/
def TraceM (ε σ α : Type) : Type := σ → Except ε α × σ

/-- Sequencing in `TraceM`: a failure short-circuits but keeps the state. -/
def TraceM.bind {ε σ α β : Type} (x : TraceM ε σ α) (f : α → TraceM ε σ β) :
    TraceM ε σ β := fun s =>
  match x s with
  | (.ok a, s1) => f a s1
  | (.error e, s1) => (.error e, s1)

instance : Monad (TraceM ε σ) where
  pure a := fun s => (.ok a, s)
  bind := TraceM.bind

theorem TraceM.run_bind {ε σ α β : Type} (x : TraceM ε σ α) (f : α → TraceM ε σ β) (s : σ) :
    (x >>= f) s =
      match x s with
      | (.ok a, s1) => f a s1
      | (.error e, s1) => (.error e, s1) := rfl

theorem TraceM.run_pure {ε σ α : Type} (a : α) (s : σ) :
    (pure a : TraceM ε σ α) s = (.ok a, s) := rfl

instance : LawfulMonad (TraceM ε σ) :=
  LawfulMonad.mk' (TraceM ε σ)
    (by
      intro α x
      funext s
      show TraceM.bind x (fun a => pure (id a)) s = x s
      unfold TraceM.bind
      rcases hx : x s with ⟨r, s1⟩
      cases r <;> rfl)
    (by intro α β a f; funext s; rfl)
    (by
      intro α β γ x f g
      funext s
      show TraceM.bind (TraceM.bind x f) g s = TraceM.bind x (fun a => TraceM.bind (f a) g) s
      unfold TraceM.bind
      rcases hx : x s with ⟨r, s1⟩
      cases r <;> rfl)

/-- A write oracle for `TraceM`: writes satisfying `p` succeed and are
appended to the log; the first write violating `p` fails with `err`. -/
def loggingWrite {ε : Type} (p : Arm64CoreRegs × Nat → Bool) (err : ε)
    (r : Arm64CoreRegs) (v : Nat) : TraceM ε (List (Arm64CoreRegs × Nat)) PUnit :=
  fun log => if p (r, v) then (.ok ⟨⟩, log ++ [(r, v)]) else (.error err, log)

/-- Pure-state write oracle: writing register `r` with value `v` updates the
vcpu register state at `r`. -/
def updateWrite (r : Arm64CoreRegs) (v : Nat) :
    StateM (Arm64CoreRegs → Nat) PUnit :=
  fun st => (PUnit.unit, Function.update st r v)

theorem bind_pure_punit {m : Type → Type} [Monad m] [LawfulMonad m] (x : m PUnit) :
    (x >>= fun _ => pure PUnit.unit) = x := by
  have h : (fun (u : PUnit) => (pure u : m PUnit)) = fun _ => pure PUnit.unit := by
    funext u; cases u; rfl
  rw [← h, bind_pure]

theorem set_core_regs_eq_forM {m : Type → Type} [Monad m] [LawfulMonad m]
    (set_one_reg : Arm64CoreRegs → Nat → m PUnit) (core_regs : KvmRegs) :
    set_core_regs set_one_reg core_regs =
      (writeOrder core_regs).forM fun q => set_one_reg q.1 q.2 := by
  rw [set_core_regs, writeOrder]
  simp only [List.forM_append, forM_map_comp, List.forM_cons', List.forM_nil',
    bind_assoc, pure_bind, bind_pure_punit]

theorem forM_loggingWrite {ε : Type} (p : Arm64CoreRegs × Nat → Bool) (err : ε) :
    ∀ (l : List (Arm64CoreRegs × Nat)) (log : List (Arm64CoreRegs × Nat)),
      (l.forM fun q => loggingWrite p err q.1 q.2) log =
        ((if l.all p then Except.ok PUnit.unit else Except.error err),
          log ++ l.takeWhile p) := by
  intro l
  induction l with
  | nil => intro log; simp [TraceM.run_pure]
  | cons q t ih =>
    intro log
    rcases q with ⟨qr, qv⟩
    rw [List.forM_cons', TraceM.run_bind]
    by_cases hq : p (qr, qv)
    · rw [show loggingWrite p err qr qv log = (.ok ⟨⟩, log ++ [(qr, qv)]) from by
        simp [loggingWrite, hq]]
      exact (ih (log ++ [(qr, qv)])).trans (by
        simp only [List.all_cons, List.takeWhile_cons, hq, List.append_assoc, Bool.true_and,
          List.singleton_append, if_pos])
    · rw [show loggingWrite p err qr qv log = (.error err, log) from by
        simp [loggingWrite, hq]]
      simp [List.all_cons, List.takeWhile_cons, hq]

theorem forM_updateWrite :
    ∀ (l : List (Arm64CoreRegs × Nat)) (s : Arm64CoreRegs → Nat),
      ((l.forM fun q => updateWrite q.1 q.2) s).2 =
        l.foldl (fun st q => Function.update st q.1 q.2) s := by
  intro l
  induction l with
  | nil => intro s; rfl
  | cons q t ih =>
    intro s
    rw [List.forM_cons']
    show ((t.forM fun q => updateWrite q.1 q.2) (Function.update s q.1 q.2)).2 = _
    rw [ih, List.foldl_cons]

theorem foldl_update_eq_self :
    ∀ (l : List (Arm64CoreRegs × Nat)) (s : Arm64CoreRegs → Nat),
      (∀ q ∈ l, q.2 = s q.1) →
      l.foldl (fun st q => Function.update st q.1 q.2) s = s := by
  intro l
  induction l with
  | nil => intro s _; rfl
  | cons q t ih =>
    intro s hs
    rcases q with ⟨qr, qv⟩
    have hq : qv = s qr := hs _ (List.mem_cons_self _ _)
    rw [List.foldl_cons]
    have hupd : Function.update s qr qv = s := by
      rw [hq]; exact Function.update_eq_self qr s
    rw [hupd]
    exact ih s fun q hqmem => hs q (List.mem_cons_of_mem _ hqmem)

/-- Width bound of each register class: 64-bit scalars, 128-bit SIMD vectors,
32-bit status and control words. -/
def reg_width : Arm64CoreRegs → Nat
  | .UserFPSIMDStateVregs _ => 2 ^ 128
  | .UserFPSIMDStateFpsr => 2 ^ 32
  | .UserFPSIMDStateFpcr => 2 ^ 32
  | _ => 2 ^ 64

/-- The truncation `get_core_regs` applies to the raw value read from each
register class. -/
def truncReg : Arm64CoreRegs → Nat → Nat
  | .UserFPSIMDStateVregs _, v => v
  | .UserFPSIMDStateFpsr, v => v % 2 ^ 32
  | .UserFPSIMDStateFpcr, v => v % 2 ^ 32
  | _, v => v % 2 ^ 64

theorem truncReg_eq_of_lt (r : Arm64CoreRegs) (v : Nat) (h : v < reg_width r) :
    truncReg r v = v := by
  cases r <;> first
    | rfl
    | exact Nat.mod_eq_of_lt h

theorem writeOrder_capture (s : Arm64CoreRegs → Nat) :
    writeOrder (mkRegs (captureOrder.map s)) =
      captureOrder.map fun r => (r, truncReg r (s r)) := rfl

/-! ### Specification-side register-id encoding (for claim C2) -/

/-- The architecture class tag (`KVM_REG_ARM64`) as the spec names it. -/
def spec_class_tag : Nat := 0x6000000000000000

/-- The core-register group tag (`KVM_REG_ARM_CORE`) as the spec names it. -/
def spec_group_tag : Nat := 0x00100000

/-- Width tag per field class as stated by the spec: 64-bit for
general-purpose and system registers, 128-bit for SIMD vectors, 32-bit for
the floating-point status and control words. -/
def spec_width_tag : Arm64CoreRegs → Nat
  | .UserFPSIMDStateVregs _ => 0x0040000000000000
  | .UserFPSIMDStateFpsr => 0x0020000000000000
  | .UserFPSIMDStateFpcr => 0x0020000000000000
  | _ => 0x0030000000000000

/-- Byte offset of each variant in the canonical register-file layout,
written out independently from the cumulative layout: 31 general-purpose
8-byte registers, then sp, pc, pstate, then sp_el1, elr_el1, the 5 spsr
slots, and at byte 336 (16-byte aligned) the 32 16-byte vector registers
followed by the 4-byte fpsr and fpcr. -/
def spec_byte_offset : Arm64CoreRegs → Nat
  | .UserPTRegRegs i => i * 8
  | .UserPTRegSp => 31 * 8
  | .UserPTRegPc => 31 * 8 + 8
  | .UserPTRegPState => 31 * 8 + 16
  | .KvmSpEl1 => 31 * 8 + 24
  | .KvmElrEl1 => 31 * 8 + 32
  | .KvmSpsr i => 31 * 8 + 40 + i * 8
  | .UserFPSIMDStateVregs i => 336 + i * 16
  | .UserFPSIMDStateFpsr => 336 + 32 * 16
  | .UserFPSIMDStateFpcr => 336 + 32 * 16 + 4

/-- The spec's formula: `class_tag | width_tag | group_tag | (byte_offset / 4)`. -/
def spec_encode (r : Arm64CoreRegs) : Nat :=
  spec_class_tag ||| spec_width_tag r ||| spec_group_tag ||| (spec_byte_offset r / 4)

/-- C2: for every valid register variant, the code's encoding to a 64-bit
register id equals the bitwise OR of the architecture class tag, the
class-dependent width tag, the core-register group tag, and the variant's
byte offset within the canonical register-file layout divided by 4. -/
theorem to_u64_encodes_spec (r : Arm64CoreRegs) (h : r.is_valid = true) :
    r.to_u64 = some (spec_encode r) := by
  cases r with
  | KvmSpsr idx =>
    have h' : idx < KVM_NR_SPSR := by
      simpa [Arm64CoreRegs.is_valid] using h
    simp only [Arm64CoreRegs.to_u64]
    rw [if_pos h']
    rfl
  | UserPTRegRegs idx =>
    have h' : idx < 31 := by
      simpa [Arm64CoreRegs.is_valid] using h
    have harith : offset_kvm_regs_regs + offset_user_pt_regs_regs + idx * 8 = idx * 8 := by
      simp [offset_kvm_regs_regs, offset_user_pt_regs_regs]
    simp only [Arm64CoreRegs.to_u64]
    rw [if_pos h', Option.map_some', harith]
    rfl
  | UserFPSIMDStateVregs idx =>
    have h' : idx < 32 := by
      simpa [Arm64CoreRegs.is_valid] using h
    simp only [Arm64CoreRegs.to_u64]
    rw [if_pos h']
    rfl
  | KvmSpEl1 => rfl
  | KvmElrEl1 => rfl
  | UserPTRegSp => rfl
  | UserPTRegPc => rfl
  | UserPTRegPState => rfl
  | UserFPSIMDStateFpsr => rfl
  | UserFPSIMDStateFpcr => rfl

/-- Witness for C2 at concrete inputs. -/
theorem to_u64_encodes_spec_witness :
    (Arm64CoreRegs.KvmSpsr 3).is_valid = true ∧
      (Arm64CoreRegs.KvmSpsr 3).to_u64 = some (spec_encode (Arm64CoreRegs.KvmSpsr 3)) :=
  ⟨by decide, to_u64_encodes_spec (Arm64CoreRegs.KvmSpsr 3) (by decide)⟩

/-- C3: `get_core_regs` issues exactly one read per register variant, in the
canonical order `captureOrder` (stack pointer; exception-level-1 stack
pointer; processor state; program counter; exception-level-1 link register;
the 31 general-purpose registers ascending; the saved-program-status
registers ascending; the 32 SIMD vector registers ascending; fpsr; fpcr):
for every read oracle it is literally the monadic traversal of
`captureOrder`, so the first failing read makes the whole operation return
that failure and no partial register file is produced. -/
theorem get_core_regs_canonical_order {ε : Type} (read : Arm64CoreRegs → Except ε Nat) :
    get_core_regs read = (captureOrder.mapM read).map mkRegs :=
  get_core_regs_eq_mapM read

/-- C4: `set_core_regs` issues exactly one write per register variant, in
the same canonical order as the reads of `get_core_regs` (first conjunct:
the registers written, in order, are exactly `captureOrder`).  Running it
with an oracle that fails on the first write violating `p` shows (second
conjunct) that the operation stops at the first failing write and returns
that failure, and that exactly the writes strictly before the failing one
have been issued and stay issued — no rollback; if every write succeeds, all
75 writes are issued in order. -/
theorem set_core_regs_canonical_order {ε : Type} (p : Arm64CoreRegs × Nat → Bool) (err : ε)
    (core_regs : KvmRegs) :
    (writeOrder core_regs).map Prod.fst = captureOrder ∧
    set_core_regs (loggingWrite p err) core_regs [] =
      ((if (writeOrder core_regs).all p then Except.ok PUnit.unit else Except.error err),
        (writeOrder core_regs).takeWhile p) := by
  constructor
  · simp [writeOrder, captureOrder, List.map_append, List.map_map, Function.comp_def]
  · rw [set_core_regs_eq_forM, forM_loggingWrite]
    simp

/-- C5: the register-id encoding is a pure function of the variant and is
injective over all valid variants. -/
theorem to_u64_injective_on_valid (r1 r2 : Arm64CoreRegs) (h1 : r1.is_valid = true)
    (h2 : r2.is_valid = true) (h : r1.to_u64 = r2.to_u64) : r1 = r2 := by
  have hmem : ∀ r : Arm64CoreRegs, r.is_valid = true → r ∈ captureOrder := by
    intro r hr
    cases r <;>
      simp_all [Arm64CoreRegs.is_valid, captureOrder, KVM_NR_SPSR, KVM_NR_REGS,
        KVM_NR_FP_REGS]
  have hnodup : (captureOrder.map Arm64CoreRegs.to_u64).Nodup := by decide
  exact List.inj_on_of_nodup_map hnodup (hmem r1 h1) (hmem r2 h2) h

/-- Witness for C5 at concrete inputs. -/
theorem to_u64_injective_on_valid_witness :
    Arm64CoreRegs.UserPTRegSp = Arm64CoreRegs.UserPTRegSp :=
  to_u64_injective_on_valid Arm64CoreRegs.UserPTRegSp Arm64CoreRegs.UserPTRegSp
    (by decide) (by decide) rfl

/-- C6: encoding an index-bearing variant with an index at or above its
class's fixed count (31 general-purpose, 5 saved-program-status, 32 SIMD
vectors) hits the source's invalid-register panic arm (`none` here) instead
of wrapping or truncating, while the largest valid index encodes
successfully. -/
theorem to_u64_index_bounds :
    (∀ idx, 31 ≤ idx → (Arm64CoreRegs.UserPTRegRegs idx).to_u64 = none) ∧
    (∀ idx, KVM_NR_SPSR ≤ idx → (Arm64CoreRegs.KvmSpsr idx).to_u64 = none) ∧
    (∀ idx, 32 ≤ idx → (Arm64CoreRegs.UserFPSIMDStateVregs idx).to_u64 = none) ∧
    (Arm64CoreRegs.UserPTRegRegs 30).to_u64.isSome = true ∧
    (Arm64CoreRegs.KvmSpsr 4).to_u64.isSome = true ∧
    (Arm64CoreRegs.UserFPSIMDStateVregs 31).to_u64.isSome = true := by
  refine ⟨?_, ?_, ?_, by decide, by decide, by decide⟩ <;>
    · intro idx h
      simp only [Arm64CoreRegs.to_u64]
      rw [if_neg (by omega)]
      rfl

/-- Witness for C6 at concrete out-of-range indices. -/
theorem to_u64_index_bounds_witness :
    (Arm64CoreRegs.UserPTRegRegs 31).to_u64 = none ∧
    (Arm64CoreRegs.KvmSpsr 5).to_u64 = none ∧
    (Arm64CoreRegs.UserFPSIMDStateVregs 32).to_u64 = none :=
  ⟨to_u64_index_bounds.1 31 (by decide), to_u64_index_bounds.2.1 5 (by decide),
    to_u64_index_bounds.2.2.1 32 (by decide)⟩

/-- C7: capture followed immediately by restore is a round-trip identity.
For a vcpu state `s` whose register values fit their architectural widths,
every read succeeding, `get_core_regs` produces a register file, and running
`set_core_regs` on that file (every write succeeding, writes modelled as
state updates) writes back exactly the captured values, leaving the full
register state identical. -/
theorem capture_restore_roundtrip (s : Arm64CoreRegs → Nat)
    (h : ∀ r, s r < reg_width r) :
    ∃ file : KvmRegs,
      get_core_regs (fun r => (Except.ok (s r) : Except Unit Nat)) = .ok file ∧
      ((set_core_regs updateWrite file) s).2 = s := by
  refine ⟨mkRegs (captureOrder.map s), ?_, ?_⟩
  · rw [get_core_regs_eq_mapM, except_mapM_ok_fun]
    rfl
  · rw [set_core_regs_eq_forM, forM_updateWrite, writeOrder_capture]
    refine foldl_update_eq_self _ s ?_
    intro q hq
    obtain ⟨r, hr, rfl⟩ := List.mem_map.1 hq
    exact truncReg_eq_of_lt r (s r) (h r)

/-- Witness for C7 at the all-zero register state. -/
theorem capture_restore_roundtrip_witness :
    ∃ file : KvmRegs,
      get_core_regs (fun r => (Except.ok ((fun _ => 0) r) : Except Unit Nat)) = .ok file ∧
      ((set_core_regs updateWrite file) (fun _ => 0)).2 = fun _ => 0 :=
  capture_restore_roundtrip (fun _ => 0) (by intro r; cases r <;> exact Nat.two_pow_pos _)

/-! ### Feature negotiation proofs -/

theorem u32_land_not_land_not (value dev : Nat) (hv : value < 2 ^ 32) :
    value &&& u32_not (value &&& u32_not dev) = value &&& dev := by
  refine Nat.eq_of_testBit_eq fun i => ?_
  rcases lt_or_ge i 32 with hi | hi
  · simp only [u32_not, Nat.testBit_land, Nat.testBit_xor,
      show (0xFFFFFFFF : Nat) = 2 ^ 32 - 1 from rfl, Nat.testBit_two_pow_sub_one]
    simp only [decide_eq_true hi]
    cases value.testBit i <;> cases dev.testBit i <;> rfl
  · have hv' : value.testBit i = false :=
      Nat.testBit_eq_false_of_lt
        (lt_of_lt_of_le hv (Nat.pow_le_pow_right (by norm_num) hi))
    simp [Nat.testBit_land, hv']

theorem u32_land_self_of_no_unsupported (value dev : Nat) (hv : value < 2 ^ 32)
    (h : value &&& u32_not dev = 0) : value &&& dev = value := by
  refine Nat.eq_of_testBit_eq fun i => ?_
  have hb := congrArg (fun n => Nat.testBit n i) h
  simp only [Nat.zero_testBit] at hb
  rcases lt_or_ge i 32 with hi | hi
  · simp only [u32_not, Nat.testBit_land, Nat.testBit_xor,
      show (0xFFFFFFFF : Nat) = 2 ^ 32 - 1 from rfl, Nat.testBit_two_pow_sub_one,
      decide_eq_true hi] at hb ⊢
    cases hvb : value.testBit i <;> cases hdb : dev.testBit i <;> simp_all
  · have hv' : value.testBit i = false :=
      Nat.testBit_eq_false_of_lt
        (lt_of_lt_of_le hv (Nat.pow_le_pow_right (by norm_num) hi))
    simp [Nat.testBit_land, hv']

/-- Functional characterization of `checked_driver_features`: the driver
value is masked down to exactly the device-supported bits of the selected
page, and the result is placed in the low (page 0) or high (page ≠ 0) window
of the 64-bit mask, combined with the stored driver features of the other
page. -/
theorem checked_driver_features_eq (get_device get_driver : Nat → Nat)
    (page value : Nat) (hv : value < 2 ^ 32) :
    checked_driver_features get_device get_driver page value =
      if page = 0 then (get_driver 1 <<< 32) ||| (value &&& get_device page)
      else ((value &&& get_device page) <<< 32) ||| get_driver 0 := by
  by_cases h0 : value &&& u32_not (get_device page) = 0
  · have hval : value &&& get_device page = value :=
      u32_land_self_of_no_unsupported value (get_device page) hv h0
    simp [checked_driver_features, h0, hval]
  · have hval : value &&& u32_not (value &&& u32_not (get_device page)) =
        value &&& get_device page :=
      u32_land_not_land_not value (get_device page) hv
    simp [checked_driver_features, h0, hval]

/-- C1: for every page and 32-bit driver value, `checked_driver_features`
never fails (it is a total function); it clears from the value exactly the
bits absent from `get_device_features page` (keeping every bit present
there), i.e. computes `value &&& get_device_features page`, and returns the
64-bit mask with the masked value in bits 0-31 and the stored page-1 driver
features in bits 32-63 when `page = 0`, and with the masked value in bits
32-63 and the stored page-0 driver features in bits 0-31 otherwise. -/
theorem checked_driver_features_masks (get_device get_driver : Nat → Nat)
    (page value : Nat) (hv : value < 2 ^ 32) :
    checked_driver_features get_device get_driver page value =
      if page = 0 then (get_driver 1 <<< 32) ||| (value &&& get_device page)
      else ((value &&& get_device page) <<< 32) ||| get_driver 0 :=
  checked_driver_features_eq get_device get_driver page value hv

/-- Witness for C1 at the spec's worked example: device page-0 features
0x221, driver value 0x100221; the accepted page-0 value is 0x221 (bit 20
dropped). -/
theorem checked_driver_features_masks_witness :
    (0x100221 : Nat) < 2 ^ 32 ∧
    checked_driver_features (fun _ => 0x221) (fun _ => 0) 0 0x100221 = 0x221 := by
  refine ⟨by norm_num, ?_⟩
  rw [checked_driver_features_masks (fun _ => 0x221) (fun _ => 0) 0 0x100221 (by norm_num)]
  decide

theorem shiftLeft32_shiftRight32 (x : Nat) : (x <<< 32) >>> 32 = x := by
  simp [Nat.shiftLeft_eq, Nat.shiftRight_eq_div_pow, Nat.mul_div_cancel]

/-- C8: negotiating page 0 with `a` and page 1 with `b`, each result stored
before the other page is negotiated and starting from an all-zero driver
mask, produces the same final 64-bit accepted mask in either order. -/
theorem negotiation_order_independent (dev : Nat → Nat) (a b : Nat)
    (ha : a < 2 ^ 32) (hb : b < 2 ^ 32) :
    (set_driver_features (set_driver_features ⟨dev, 0⟩ 0 a) 1 b).driver_features =
      (set_driver_features (set_driver_features ⟨dev, 0⟩ 1 b) 0 a).driver_features := by
  have hga : a &&& dev 0 < 2 ^ 32 := Nat.lt_of_le_of_lt Nat.and_le_left ha
  have hgb : b &&& dev 1 < 2 ^ 32 := Nat.lt_of_le_of_lt Nat.and_le_left hb
  have hs1 : set_driver_features ⟨dev, 0⟩ 0 a = ⟨dev, a &&& dev 0⟩ := by
    simp only [set_driver_features]
    rw [checked_driver_features_eq dev _ 0 a ha]
    simp [get_driver_features]
  have hs1' : set_driver_features ⟨dev, 0⟩ 1 b = ⟨dev, (b &&& dev 1) <<< 32⟩ := by
    simp only [set_driver_features]
    rw [checked_driver_features_eq dev _ 1 b hb]
    simp [get_driver_features]
  have hga4 : (a &&& dev 0) % 4294967296 = a &&& dev 0 := Nat.mod_eq_of_lt hga
  have hgb4 : (b &&& dev 1) % 4294967296 = b &&& dev 1 := Nat.mod_eq_of_lt hgb
  rw [hs1, hs1']
  simp only [set_driver_features]
  rw [checked_driver_features_eq dev _ 1 b hb, checked_driver_features_eq dev _ 0 a ha]
  simp [get_driver_features, shiftLeft32_shiftRight32, hga4, hgb4]

/-- Witness for C8 at concrete inputs. -/
theorem negotiation_order_independent_witness :
    NegotiationState.driver_features
        (set_driver_features (set_driver_features ⟨fun _ => 0x221, 0⟩ 0 0x100221) 1 3) =
      NegotiationState.driver_features
        (set_driver_features (set_driver_features ⟨fun _ => 0x221, 0⟩ 1 3) 0 0x100221) :=
  negotiation_order_independent (fun _ => 0x221) 0x100221 3 (by norm_num) (by norm_num)

/-! ### Device-lifecycle default methods (C9) -/

theorem matchesAt_refl : ∀ l : List Char, matchesAt l l = true := by
  intro l
  induction l with
  | nil => rfl
  | cons c t ih => simp [matchesAt, ih]

theorem containsSeq_append_self (x : List Char) :
    ∀ pre : List Char, containsSeq x (pre ++ x) = true := by
  intro pre
  induction pre with
  | nil =>
    cases x with
    | nil => rfl
    | cons c t => simp [containsSeq, matchesAt_refl]
  | cons p ps ih => simp [containsSeq, ih]

/-- C9 counterexample: for a device with `device_type` 1, the default
`unrealize` failure message is a fixed string that does not contain the
rendering of the device type, refuting the claim that each of the three
defaults names the device type. -/
theorem unrealize_default_does_not_name_type :
    (unrealize_default ⟨1⟩).2 =
      .error "Unrealize of the virtio device is not implemented" ∧
    containsSeq (toString (VirtioDeviceModel.mk 1).device_type).toList
      "Unrealize of the virtio device is not implemented".toList = false :=
  ⟨rfl, by decide⟩

/-- C9 (amended): the default `unrealize`, `deactivate` and `update_config`
each return a descriptive failure and none of them mutate device state; the
default `deactivate` message contains the device's `device_type` value,
while `unrealize` and `update_config` return fixed messages. -/
theorem lifecycle_defaults_behaviour (d : VirtioDeviceModel) :
    (unrealize_default d).1 = d ∧
    (unrealize_default d).2 = .error "Unrealize of the virtio device is not implemented" ∧
    (deactivate_default d).1 = d ∧
    (deactivate_default d).2 =
      .error ("Reset this device is not supported, virtio dev type is "
        ++ toString d.device_type) ∧
    containsSeq (toString d.device_type).toList
      ("Reset this device is not supported, virtio dev type is "
        ++ toString d.device_type).toList = true ∧
    (update_config_default d).1 = d ∧
    (update_config_default d).2 = .error "Unsupported to update configuration" := by
  refine ⟨rfl, rfl, rfl, rfl, ?_, rfl, rfl⟩
  have hsplit : ("Reset this device is not supported, virtio dev type is "
      ++ toString d.device_type).toList =
      "Reset this device is not supported, virtio dev type is ".toList
        ++ (toString d.device_type).toList := by
    simp [String.toList, String.data_append]
  rw [hsplit]
  exact containsSeq_append_self _ _

/-! ### MAC address check proofs (C10) -/

theorem splitColon_ne_nil (l : List Char) : splitColon l ≠ [] := by
  cases l with
  | nil => simp [splitColon]
  | cons c rest =>
    simp only [splitColon]
    split <;> simp

/-- Inverse of `splitColon`: rejoin the pieces with colons. -/
def joinColon : List (List Char) → List Char
  | [] => []
  | [g] => g
  | g :: gs => g ++ ':' :: joinColon gs

theorem splitColon_join (l : List Char) : joinColon (splitColon l) = l := by
  induction l with
  | nil => rfl
  | cons c rest ih =>
    cases hr : splitColon rest with
    | nil => exact absurd hr (splitColon_ne_nil rest)
    | cons r0 rs =>
      rw [hr] at ih
      by_cases hc : c = ':'
      · subst hc
        simp only [splitColon, if_pos rfl]
        rw [hr]
        show ':' :: joinColon (r0 :: rs) = ':' :: rest
        rw [ih]
      · simp only [splitColon, if_neg hc]
        rw [hr]
        cases rs with
        | nil =>
          show (c :: r0) = c :: rest
          simp only [joinColon] at ih
          rw [ih]
        | cons r1 rs' =>
          show (c :: r0) ++ ':' :: joinColon (r1 :: rs') = c :: rest
          simp only [joinColon] at ih ⊢
          simp [← ih]

theorem splitColon_no_colon :
    ∀ (g : List Char), (∀ c ∈ g, ¬ c = ':') → splitColon g = [g] := by
  intro g
  induction g with
  | nil => intro _; rfl
  | cons a gs ih =>
    intro h
    have ha : ¬ a = ':' := h a (List.mem_cons_self _ _)
    simp only [splitColon, if_neg ha]
    rw [ih fun c hc => h c (List.mem_cons_of_mem _ hc)]
    rfl

theorem splitColon_append_colon :
    ∀ (g rest : List Char), (∀ c ∈ g, ¬ c = ':') →
      splitColon (g ++ ':' :: rest) = g :: splitColon rest := by
  intro g
  induction g with
  | nil =>
    intro rest _
    simp [splitColon]
  | cons a gs ih =>
    intro rest h
    have ha : ¬ a = ':' := h a (List.mem_cons_self _ _)
    simp only [List.cons_append, splitColon, if_neg ha, List.append_eq]
    rw [ih rest fun c hc => h c (List.mem_cons_of_mem _ hc)]
    rfl

instance (c : Char) : Decidable (isHexChar c) := by
  unfold isHexChar
  infer_instance

theorem bit_list_contains_iff (c : Char) : bit_list.contains c = true ↔ isHexChar c := by
  constructor
  · intro h
    have hm : c ∈ bit_list := List.elem_iff.mp h
    fin_cases hm <;> decide
  · intro h
    have hofn := Char.ofNat_toNat c
    rcases h with ⟨h1, h2⟩ | ⟨h1, h2⟩ | ⟨h1, h2⟩
    · have l1 : 48 ≤ c.toNat := h1
      have l2 : c.toNat ≤ 57 := h2
      obtain ⟨n, hn⟩ : ∃ n, c.toNat = n := ⟨c.toNat, rfl⟩
      rw [hn] at l1 l2 hofn
      interval_cases n <;> (rw [← hofn]; decide)
    · have l1 : 97 ≤ c.toNat := h1
      have l2 : c.toNat ≤ 102 := h2
      obtain ⟨n, hn⟩ : ∃ n, c.toNat = n := ⟨c.toNat, rfl⟩
      rw [hn] at l1 l2 hofn
      interval_cases n <;> (rw [← hofn]; decide)
    · have l1 : 65 ≤ c.toNat := h1
      have l2 : c.toNat ≤ 70 := h2
      obtain ⟨n, hn⟩ : ∃ n, c.toNat = n := ⟨c.toNat, rfl⟩
      rw [hn] at l1 l2 hofn
      interval_cases n <;> (rw [← hofn]; decide)

theorem isHexChar_ne_colon (c : Char) (h : isHexChar c) : ¬ c = ':' := by
  intro hc
  subst hc
  rcases h with ⟨h1, h2⟩ | ⟨h1, h2⟩ | ⟨h1, h2⟩
  · exact absurd h2 (by decide)
  · exact absurd h1 (by decide)
  · exact absurd h1 (by decide)

/-- C10: `check_mac_address` accepts a string exactly when it consists of six
groups separated by single colons, each group being exactly two hexadecimal
characters; every other string is rejected. -/
theorem check_mac_address_iff (mac : List Char) :
    check_mac_address mac = true ↔ isMacSpec mac := by
  constructor
  · intro h
    simp only [check_mac_address, MAC_ADDRESS_LENGTH] at h
    split_ifs at h with h1 h2
    have hc6 : (splitColon mac).length = 6 := not_ne_iff.mp h2
    obtain ⟨g1, g2, g3, g4, g5, g6, hs⟩ :
        ∃ a b c d e f, splitColon mac = [a, b, c, d, e, f] := by
      rcases hv : splitColon mac with
          _ | ⟨a, _ | ⟨b, _ | ⟨c, _ | ⟨d, _ | ⟨e, _ | ⟨f, _ | ⟨g, t⟩⟩⟩⟩⟩⟩⟩ <;>
        (try exact ⟨a, b, c, d, e, f, rfl⟩) <;>
        (exfalso; rw [hv] at hc6; simp at hc6)
    rw [hs] at h
    simp only [List.all_cons, List.all_nil, Bool.and_eq_true, Bool.and_true] at h
    obtain ⟨p1, p2, p3, p4, p5, p6⟩ := h
    rcases g1 with _ | ⟨x1, _ | ⟨y1, _ | ⟨z1, t1⟩⟩⟩ <;> try (exfalso; revert p1; simp; done)
    rcases g2 with _ | ⟨x2, _ | ⟨y2, _ | ⟨z2, t2⟩⟩⟩ <;> try (exfalso; revert p2; simp; done)
    rcases g3 with _ | ⟨x3, _ | ⟨y3, _ | ⟨z3, t3⟩⟩⟩ <;> try (exfalso; revert p3; simp; done)
    rcases g4 with _ | ⟨x4, _ | ⟨y4, _ | ⟨z4, t4⟩⟩⟩ <;> try (exfalso; revert p4; simp; done)
    rcases g5 with _ | ⟨x5, _ | ⟨y5, _ | ⟨z5, t5⟩⟩⟩ <;> try (exfalso; revert p5; simp; done)
    rcases g6 with _ | ⟨x6, _ | ⟨y6, _ | ⟨z6, t6⟩⟩⟩ <;> try (exfalso; revert p6; simp; done)
    obtain ⟨hx1, hy1⟩ : bit_list.contains x1 = true ∧ bit_list.contains y1 = true := by
      have p' : (bit_list.contains x1 && bit_list.contains y1) = true := p1
      exact (Bool.and_eq_true _ _).mp p'
    obtain ⟨hx2, hy2⟩ : bit_list.contains x2 = true ∧ bit_list.contains y2 = true := by
      have p' : (bit_list.contains x2 && bit_list.contains y2) = true := p2
      exact (Bool.and_eq_true _ _).mp p'
    obtain ⟨hx3, hy3⟩ : bit_list.contains x3 = true ∧ bit_list.contains y3 = true := by
      have p' : (bit_list.contains x3 && bit_list.contains y3) = true := p3
      exact (Bool.and_eq_true _ _).mp p'
    obtain ⟨hx4, hy4⟩ : bit_list.contains x4 = true ∧ bit_list.contains y4 = true := by
      have p' : (bit_list.contains x4 && bit_list.contains y4) = true := p4
      exact (Bool.and_eq_true _ _).mp p'
    obtain ⟨hx5, hy5⟩ : bit_list.contains x5 = true ∧ bit_list.contains y5 = true := by
      have p' : (bit_list.contains x5 && bit_list.contains y5) = true := p5
      exact (Bool.and_eq_true _ _).mp p'
    obtain ⟨hx6, hy6⟩ : bit_list.contains x6 = true ∧ bit_list.contains y6 = true := by
      have p' : (bit_list.contains x6 && bit_list.contains y6) = true := p6
      exact (Bool.and_eq_true _ _).mp p'
    refine ⟨[x1, y1], [x2, y2], [x3, y3], [x4, y4], [x5, y5], [x6, y6], ?_, ?_⟩
    · have hj := splitColon_join mac
      rw [hs] at hj
      simp only [joinColon] at hj
      simp [← hj]
    · intro g hg
      fin_cases hg
      · exact ⟨rfl, fun c hc => by
          fin_cases hc
          · exact (bit_list_contains_iff _).mp hx1
          · exact (bit_list_contains_iff _).mp hy1⟩
      · exact ⟨rfl, fun c hc => by
          fin_cases hc
          · exact (bit_list_contains_iff _).mp hx2
          · exact (bit_list_contains_iff _).mp hy2⟩
      · exact ⟨rfl, fun c hc => by
          fin_cases hc
          · exact (bit_list_contains_iff _).mp hx3
          · exact (bit_list_contains_iff _).mp hy3⟩
      · exact ⟨rfl, fun c hc => by
          fin_cases hc
          · exact (bit_list_contains_iff _).mp hx4
          · exact (bit_list_contains_iff _).mp hy4⟩
      · exact ⟨rfl, fun c hc => by
          fin_cases hc
          · exact (bit_list_contains_iff _).mp hx5
          · exact (bit_list_contains_iff _).mp hy5⟩
      · exact ⟨rfl, fun c hc => by
          fin_cases hc
          · exact (bit_list_contains_iff _).mp hx6
          · exact (bit_list_contains_iff _).mp hy6⟩
  · rintro ⟨g1, g2, g3, g4, g5, g6, rfl, hg⟩
    obtain ⟨hl1, hh1⟩ := hg g1 (by simp)
    obtain ⟨hl2, hh2⟩ := hg g2 (by simp)
    obtain ⟨hl3, hh3⟩ := hg g3 (by simp)
    obtain ⟨hl4, hh4⟩ := hg g4 (by simp)
    obtain ⟨hl5, hh5⟩ := hg g5 (by simp)
    obtain ⟨hl6, hh6⟩ := hg g6 (by simp)
    have nc : ∀ (g : List Char), (∀ c ∈ g, isHexChar c) → ∀ c ∈ g, ¬ c = ':' :=
      fun g hgx c hc => isHexChar_ne_colon c (hgx c hc)
    obtain ⟨x1, y1, rfl⟩ := List.length_eq_two.mp hl1
    obtain ⟨x2, y2, rfl⟩ := List.length_eq_two.mp hl2
    obtain ⟨x3, y3, rfl⟩ := List.length_eq_two.mp hl3
    obtain ⟨x4, y4, rfl⟩ := List.length_eq_two.mp hl4
    obtain ⟨x5, y5, rfl⟩ := List.length_eq_two.mp hl5
    obtain ⟨x6, y6, rfl⟩ := List.length_eq_two.mp hl6
    have hs : splitColon ([x1, y1] ++ ':' :: ([x2, y2] ++ ':' :: ([x3, y3] ++ ':' ::
        ([x4, y4] ++ ':' :: ([x5, y5] ++ ':' :: [x6, y6]))))) =
        [[x1, y1], [x2, y2], [x3, y3], [x4, y4], [x5, y5], [x6, y6]] := by
      rw [splitColon_append_colon _ _ (nc _ hh1), splitColon_append_colon _ _ (nc _ hh2),
        splitColon_append_colon _ _ (nc _ hh3), splitColon_append_colon _ _ (nc _ hh4),
        splitColon_append_colon _ _ (nc _ hh5), splitColon_no_colon _ (nc _ hh6)]
    simp only [check_mac_address, MAC_ADDRESS_LENGTH]
    rw [if_neg (by simp)]
    rw [hs]
    rw [if_neg (by simp)]
    simp only [List.all_cons, List.all_nil, Bool.and_eq_true, Bool.and_true]
    exact ⟨⟨(bit_list_contains_iff _).mpr (hh1 x1 (by simp)),
        (bit_list_contains_iff _).mpr (hh1 y1 (by simp))⟩,
      ⟨(bit_list_contains_iff _).mpr (hh2 x2 (by simp)),
        (bit_list_contains_iff _).mpr (hh2 y2 (by simp))⟩,
      ⟨(bit_list_contains_iff _).mpr (hh3 x3 (by simp)),
        (bit_list_contains_iff _).mpr (hh3 y3 (by simp))⟩,
      ⟨(bit_list_contains_iff _).mpr (hh4 x4 (by simp)),
        (bit_list_contains_iff _).mpr (hh4 y4 (by simp))⟩,
      ⟨(bit_list_contains_iff _).mpr (hh5 x5 (by simp)),
        (bit_list_contains_iff _).mpr (hh5 y5 (by simp))⟩,
      ⟨(bit_list_contains_iff _).mpr (hh6 x6 (by simp)),
        (bit_list_contains_iff _).mpr (hh6 y6 (by simp))⟩⟩
